import Mathlib

set_option autoImplicit false
set_option maxHeartbeats 1000000

/- Shallow embedding of the store crate: src/store.rs (Store) and
src/stored.rs (Stored).

File-system paths are modelled as a flag saying whether the path is
absolute plus the list of components; a component is the raw file name
string, dots included.  The file system is modelled as the list of
existing directories plus an association list from file path to file
content; the position of a file in that list doubles as the (arbitrary)
directory listing order of read_dir.

Panics (the unwrap calls in Store::all and Store::delete) are modelled as
Option.none; recoverable Result errors as Except.error.  File::create,
serde encoding and fs::create_dir_all are modelled as total: I/O failures
such as permission errors or a full disk are outside the model, while the
failure cases the code actually branches on or propagates (read_dir on a
missing directory, remove_file and remove_dir_all on a missing target,
serde decode failure) are kept. -/

/- Rust Path model: abs says whether the path starts at the file-system
root, comps are the components in order. -/
structure RPath where
  abs : Bool
  comps : List String
deriving DecidableEq

/- Path::join: joining with an absolute path replaces self entirely,
joining with a relative path appends its components. -/
def RPath.join (p q : RPath) : RPath :=
  if q.abs then q else ⟨p.abs, p.comps ++ q.comps⟩

/- Split a list of characters at its last dot: returns the part before
the last dot and, when a dot occurs, the part after it. -/
def splitExt : List Char → List Char × Option (List Char)
  | [] => ([], none)
  | c :: cs =>
    match splitExt cs with
    | (st, some e) => (c :: st, some e)
    | (_, none) => if c = '.' then ([], some cs) else (c :: cs, none)

/- Extension of a file name, Rust Path::extension on one component: the
part after the last dot, where a dot in first position does not count
(".gitignore" has no extension). -/
def fileExt (s : String) : Option String :=
  match s.toList with
  | [] => none
  | _ :: cs => ((splitExt cs).2).map (fun e => String.mk e)

/- Rust Path::set_extension on one file-name component: drop the current
extension if any (a leading dot never counts) and append the new one. -/
def withExtStr (s : String) (ext : String) : String :=
  match s.toList with
  | [] => String.mk ('.' :: ext.toList)
  | c :: cs =>
    match splitExt cs with
    | (st, some _) => String.mk (c :: st ++ '.' :: ext.toList)
    | (_, none) => String.mk (c :: cs ++ '.' :: ext.toList)

/- Rust Path::extension: the extension of the last component, none when
there is no last component. -/
def RPath.extension (p : RPath) : Option String :=
  match p.comps.getLast? with
  | none => none
  | some f => fileExt f

/- Rust Path::with_extension: replace the extension of the last
component; a path without a file name is returned unchanged. -/
def RPath.withExt (p : RPath) (ext : String) : RPath :=
  match p.comps.getLast? with
  | none => p
  | some f => ⟨p.abs, p.comps.dropLast ++ [withExtStr f ext]⟩

/- Rust Path::parent as a path: drop the last component. -/
def RPath.parent? (p : RPath) : Option RPath :=
  match p.comps with
  | [] => none
  | _ :: _ => some ⟨p.abs, p.comps.dropLast⟩

/- The path itself and all its prefixes, as created by create_dir_all. -/
def RPath.ancestors (p : RPath) : List RPath :=
  (List.range (p.comps.length + 1)).map (fun n => ⟨p.abs, p.comps.take n⟩)

/- p lies under root: same absolute flag and root's components are a
prefix of p's (this includes p = root). -/
def RPath.under (p root : RPath) : Bool :=
  p.abs == root.abs && root.comps.isPrefixOf p.comps

/- Association-list lookup over path keys, the model of HashMap::get. -/
def lookupP {α : Type} : List (RPath × α) → RPath → Option α
  | [], _ => none
  | (q, v) :: rest, p => if q = p then some v else lookupP rest p

/- Remove every pair with the given key, the model of HashMap::remove. -/
def removeP {α : Type} : List (RPath × α) → RPath → List (RPath × α)
  | [], _ => []
  | (q, v) :: rest, p => if q = p then removeP rest p else (q, v) :: removeP rest p

/- The file-system state. -/
structure FS where
  dirs : List RPath
  files : List (RPath × String)
deriving DecidableEq

def FS.empty : FS := ⟨[], []⟩

/- Read the content of a file, none when the file does not exist. -/
def FS.readFile (fs : FS) (p : RPath) : Option String :=
  lookupP fs.files p

/- Write a file, replacing any previous content. -/
def FS.writeFile (fs : FS) (p : RPath) (content : String) : FS :=
  ⟨fs.dirs, (p, content) :: removeP fs.files p⟩

/- File::create: create the file or truncate it to empty content. -/
def FS.createFile (fs : FS) (p : RPath) : FS :=
  fs.writeFile p ""

/- fs::remove_file: fails when the file does not exist. -/
def FS.removeFile (fs : FS) (p : RPath) : Option FS :=
  match lookupP fs.files p with
  | none => none
  | some _ => some ⟨fs.dirs, removeP fs.files p⟩

/- fs::create_dir_all: create the directory and all its parents. -/
def FS.createDirAll (fs : FS) (d : RPath) : FS :=
  ⟨fs.dirs ++ d.ancestors.filter (fun a => !(decide (a ∈ fs.dirs))), fs.files⟩

/- fs::read_dir: fails when the directory does not exist; otherwise the
entries (files and directories) directly inside it, in listing order. -/
def FS.listDir (fs : FS) (d : RPath) : Option (List RPath) :=
  if d ∈ fs.dirs then
    some ((fs.files.map Prod.fst ++ fs.dirs).filter (fun p => decide (p.parent? = some d)))
  else none

/- fs::remove_dir_all: fails when the directory does not exist; otherwise
removes the directory and everything under it. -/
def FS.removeDirAll (fs : FS) (d : RPath) : Option FS :=
  if d ∈ fs.dirs then
    some ⟨fs.dirs.filter (fun p => !(p.under d)), fs.files.filter (fun f => !(f.1.under d))⟩
  else none

/- The serialization collaborator (serde_json in the crate): encode and
decode for the stored type.  decode_empty records that serde_json never
decodes a value out of empty input (a freshly truncated file): it reports
an end-of-file error instead. -/
structure Codec (T : Type) where
  encode : T → String
  decode : String → Option T
  decode_empty : decode "" = none

/- src/stored.rs: a stored value, one backing file plus the in-memory
value. -/
structure Stored (T : Type) where
  path : RPath
  value : T
deriving DecidableEq

/- Stored::new: normalize the path to the json extension, File::create
the backing file (creating or truncating it), then try to decode its
current content, falling back to the supplied default on any failure. -/
def Stored.new {T : Type} (c : Codec T) (fs : FS) (path0 : RPath) (default : T) :
    Stored T × FS :=
  let path := path0.withExt "json"
  let fs1 := fs.createFile path
  let value : T :=
    match fs1.readFile path with
    | some content => (c.decode content).getD default
    | none => default
  (⟨path, value⟩, fs1)

/- Stored::save: File::create then serde_json::to_writer, so the file
content becomes exactly the encoding of the in-memory value. -/
def Stored.save {T : Type} (c : Codec T) (s : Stored T) (fs : FS) : FS :=
  (fs.createFile s.path).writeFile s.path (c.encode s.value)

/- Stored::store: replace the in-memory value, then save. -/
def Stored.store {T : Type} (c : Codec T) (s : Stored T) (v : T) (fs : FS) :
    Stored T × FS :=
  let s1 : Stored T := ⟨s.path, v⟩
  (s1, s1.save c fs)

/- Stored::delete: fs::remove_file on the backing file. -/
def Stored.delete {T : Type} (s : Stored T) (fs : FS) : Option FS :=
  fs.removeFile s.path

/- src/store.rs: the collection, a root directory plus the map from
(unnormalized) joined path to stored value. -/
structure Store (T : Type) where
  path : RPath
  data : List (RPath × Stored T)
deriving DecidableEq

/- Store::new: create_dir_all on the root, start with an empty map. -/
def Store.new {T : Type} (root : RPath) (fs : FS) : Store T × FS :=
  (⟨root, []⟩, fs.createDirAll root)

/- The iterator body of Store::all over the directory listing: unwrap
the extension of every entry (panic when there is none), keep the json
ones, and unwrap the map lookup of each kept path (panic when the map
has no entry for it). -/
def allLoop {T : Type} (data : List (RPath × Stored T)) : List RPath → Option (List T)
  | [] => some []
  | p :: ps =>
    match p.extension with
    | none => none
    | some e =>
      if e = "json" then
        match lookupP data p with
        | none => none
        | some s => (allLoop data ps).map (fun ts => s.value :: ts)
      else allLoop data ps

/- Store::all: read_dir on the root (unwrap: panic when it fails), then
the filter-map loop above. -/
def Store.all {T : Type} (st : Store T) (fs : FS) : Option (List T) :=
  match fs.listDir st.path with
  | none => none
  | some listing => allLoop st.data listing

/- Store::save: join the name onto the root; when the map has no entry
for that joined path, build a Stored with the supplied value as default
and insert it, otherwise keep the existing entry untouched (the supplied
value is dropped); then save the entry that is now in the map. -/
def Store.save {T : Type} (c : Codec T) (st : Store T) (fs : FS) (name : RPath)
    (value : T) : Store T × FS :=
  let path := st.path.join name
  match lookupP st.data path with
  | some stored => (st, stored.save c fs)
  | none =>
    let sf := Stored.new c fs path value
    (⟨st.path, (path, sf.1) :: st.data⟩, sf.1.save c sf.2)

/- Store::get: map lookup of the joined path, returning the in-memory
value; never touches the file system. -/
def Store.get {T : Type} (st : Store T) (name : RPath) : Option T :=
  (lookupP st.data (st.path.join name)).map (fun s => s.value)

/- Store::delete: remove the map entry (unwrap: panic when there is
none), remove its backing file (a Result error when that fails), then
run Store::all on the shrunk state and, when it returns an empty list,
remove_dir_all the root. -/
def Store.delete {T : Type} (st : Store T) (fs : FS) (name : RPath) :
    Option (Except Unit (Store T × FS)) :=
  let path := st.path.join name
  match lookupP st.data path with
  | none => none
  | some stored =>
    let st1 : Store T := ⟨st.path, removeP st.data path⟩
    match stored.delete fs with
    | none => some (Except.error ())
    | some fs1 =>
      match Store.all st1 fs1 with
      | none => none
      | some vals =>
        if vals.isEmpty then
          match fs1.removeDirAll st.path with
          | none => some (Except.error ())
          | some fs2 => some (Except.ok (st1, fs2))
        else some (Except.ok (st1, fs1))

/- A concrete codec for String used in witnesses: decoding succeeds
exactly on nonempty input. -/
def strCodec : Codec String where
  encode := fun s => s
  decode := fun s => if s = "" then none else some s
  decode_empty := by simp

/- The root used by the concrete scenarios. -/
def dataRoot : RPath := ⟨false, ["data"]⟩

example : fileExt "x.json" = some "json" := by decide
example : fileExt "x" = none := by decide
example : fileExt ".gitignore" = none := by decide
example : withExtStr "x" "json" = "x.json" := by decide
example : withExtStr "x.json" "json" = "x.json" := by decide
example : withExtStr "x.tar.gz" "json" = "x.tar.json" := by decide

instance {ε α : Type} [DecidableEq ε] [DecidableEq α] : DecidableEq (Except ε α)
  | Except.error e, Except.error f =>
    if h : e = f then Decidable.isTrue (by rw [h])
    else Decidable.isFalse (by intro hh; cases hh; exact h rfl)
  | Except.error _, Except.ok _ => Decidable.isFalse (by intro hh; cases hh)
  | Except.ok _, Except.error _ => Decidable.isFalse (by intro hh; cases hh)
  | Except.ok x, Except.ok y =>
    if h : x = y then Decidable.isTrue (by rw [h])
    else Decidable.isFalse (by intro hh; cases hh; exact h rfl)

theorem readFile_writeFile_self (fs : FS) (p : RPath) (content : String) :
    (fs.writeFile p content).readFile p = some content := by
  simp [FS.writeFile, FS.readFile, lookupP]

theorem readFile_createFile_self (fs : FS) (p : RPath) :
    (fs.createFile p).readFile p = some "" := by
  simp [FS.createFile, readFile_writeFile_self]

/- Stored::new in closed form: the backing file is truncated and the
in-memory value is always the supplied default, because decoding the
just-truncated (empty) file always fails. -/
theorem stored_new_eq {T : Type} (c : Codec T) (fs : FS) (p : RPath) (d : T) :
    Stored.new c fs p d = (⟨p.withExt "json", d⟩, fs.createFile (p.withExt "json")) := by
  simp [Stored.new, readFile_createFile_self, c.decode_empty]

/- Store::save when the map has no entry for the joined path. -/
theorem store_save_miss {T : Type} (c : Codec T) (st : Store T) (fs : FS) (n : RPath)
    (v : T) (h : lookupP st.data (st.path.join n) = none) :
    Store.save c st fs n v =
      (⟨st.path, (st.path.join n, ⟨(st.path.join n).withExt "json", v⟩) :: st.data⟩,
        Stored.save c ⟨(st.path.join n).withExt "json", v⟩
          (fs.createFile ((st.path.join n).withExt "json"))) := by
  simp only [Store.save, h, stored_new_eq]

/- Store::save when the map already has an entry for the joined path:
the map is unchanged and the supplied value is dropped. -/
theorem store_save_hit {T : Type} (c : Codec T) (st : Store T) (fs : FS) (n : RPath)
    (v : T) (stored : Stored T) (h : lookupP st.data (st.path.join n) = some stored) :
    Store.save c st fs n v = (st, stored.save c fs) := by
  simp only [Store.save, h]

/-- C2: Stored::new (the Persistence Unit constructor create(P, D))
truncates the backing file before attempting to decode it, so the decode
attempt never succeeds and the resulting unit's in-memory value always
equals the default D, regardless of any content previously persisted at
P: the file at the normalized path is empty afterwards and the value is
D, for every prior file system. -/
theorem stored_new_value_is_default {T : Type} (c : Codec T) (fs : FS) (p : RPath)
    (d : T) :
    (Stored.new c fs p d).1.value = d ∧
    (Stored.new c fs p d).2.readFile (p.withExt "json") = some "" := by
  rw [stored_new_eq]
  exact ⟨rfl, readFile_createFile_self fs (p.withExt "json")⟩

/-- C5: round trip: for any collection state, name N with no prior entry
and value V, save(N, V) followed immediately by get(N) returns V. -/
theorem save_then_get_round_trip {T : Type} (c : Codec T) (st : Store T) (fs : FS)
    (n : RPath) (v : T) (h : lookupP st.data (st.path.join n) = none) :
    Store.get (Store.save c st fs n v).1 n = some v := by
  rw [store_save_miss c st fs n v h]
  simp [Store.get, lookupP]

/-- Witness for C5 at a concrete input: the fresh collection at "data"
has no entry for "k", and saving "v" then reading "k" yields "v". -/
theorem save_then_get_round_trip_witness :
    lookupP (⟨dataRoot, []⟩ : Store String).data (dataRoot.join ⟨false, ["k"]⟩) = none ∧
    Store.get (Store.save strCodec ⟨dataRoot, []⟩ FS.empty ⟨false, ["k"]⟩ "v").1
      ⟨false, ["k"]⟩ = some "v" :=
  ⟨rfl, save_then_get_round_trip strCodec ⟨dataRoot, []⟩ FS.empty ⟨false, ["k"]⟩ "v" rfl⟩

/-- C1: repeat-save keeps the first value: when save(N, V1) created the
entry for N, a later save(N, V2) does not apply V2; the entry's current
in-memory value V1 is re-saved to the backing file, and get(N) still
returns V1. -/
theorem repeat_save_keeps_first_value {T : Type} (c : Codec T) (st : Store T) (fs : FS)
    (n : RPath) (v1 v2 : T) (h : lookupP st.data (st.path.join n) = none) :
    Store.get (Store.save c (Store.save c st fs n v1).1 (Store.save c st fs n v1).2 n v2).1
      n = some v1 ∧
    (Store.save c (Store.save c st fs n v1).1 (Store.save c st fs n v1).2 n v2).2.readFile
      ((st.path.join n).withExt "json") = some (c.encode v1) := by
  rw [store_save_miss c st fs n v1 h]
  rw [store_save_hit c _ _ n v2 ⟨(st.path.join n).withExt "json", v1⟩ (by simp [lookupP])]
  constructor
  · simp [Store.get, lookupP]
  · simp [Stored.save, readFile_writeFile_self]

/-- Witness for C1 at a concrete input: on the fresh collection at
"data", save("k", "v1") then save("k", "v2") leaves get("k") at "v1" and
the backing file containing the encoding of "v1". -/
theorem repeat_save_keeps_first_value_witness :
    lookupP (⟨dataRoot, []⟩ : Store String).data (dataRoot.join ⟨false, ["k"]⟩) = none ∧
    (Store.get (Store.save strCodec
        (Store.save strCodec ⟨dataRoot, []⟩ FS.empty ⟨false, ["k"]⟩ "v1").1
        (Store.save strCodec ⟨dataRoot, []⟩ FS.empty ⟨false, ["k"]⟩ "v1").2
        ⟨false, ["k"]⟩ "v2").1 ⟨false, ["k"]⟩ = some "v1" ∧
      (Store.save strCodec
        (Store.save strCodec ⟨dataRoot, []⟩ FS.empty ⟨false, ["k"]⟩ "v1").1
        (Store.save strCodec ⟨dataRoot, []⟩ FS.empty ⟨false, ["k"]⟩ "v1").2
        ⟨false, ["k"]⟩ "v2").2.readFile ((dataRoot.join ⟨false, ["k"]⟩).withExt "json") =
        some (strCodec.encode "v1")) :=
  ⟨rfl, repeat_save_keeps_first_value strCodec ⟨dataRoot, []⟩ FS.empty ⟨false, ["k"]⟩
    "v1" "v2" rfl⟩

/- The C3 scenario with plain names: on a fresh collection at "data",
save entries named "a", "b", "c" with values "V1", "V2", "V3". -/
def c3PlainScenario : Store String × FS :=
  let s0 : Store String × FS := Store.new dataRoot FS.empty
  let s1 := Store.save strCodec s0.1 s0.2 ⟨false, ["a"]⟩ "V1"
  let s2 := Store.save strCodec s1.1 s1.2 ⟨false, ["b"]⟩ "V2"
  Store.save strCodec s2.1 s2.2 ⟨false, ["c"]⟩ "V3"

/-- C3 counterexample: after saving names "a", "b", "c" (none previously
present) on a fresh collection, Store::all does not succeed: the map is
keyed by the unnormalized joined paths data/a, data/b, data/c while the
files on disk are data/a.json, data/b.json, data/c.json, so the map
lookup inside all() is unwrapped on None and the call panics. -/
theorem all_after_plain_name_saves_panics :
    Store.all c3PlainScenario.1 c3PlainScenario.2 = none := by decide

/- The C3 scenario with names that already carry the json extension. -/
def c3JsonScenario {T : Type} (c : Codec T) (v1 v2 v3 : T) : Store T × FS :=
  let s0 : Store T × FS := Store.new dataRoot FS.empty
  let s1 := Store.save c s0.1 s0.2 ⟨false, ["a.json"]⟩ v1
  let s2 := Store.save c s1.1 s1.2 ⟨false, ["b.json"]⟩ v2
  Store.save c s2.1 s2.2 ⟨false, ["c.json"]⟩ v3

/-- C3 amended: after saving entries for the three names "a.json",
"b.json", "c.json" (whose joined paths coincide with the normalized
backing-file paths) with values V1, V2, V3 on a fresh collection, all()
succeeds and returns exactly {V1, V2, V3} up to order; with the
extensionless names "a", "b", "c" of the original claim the call panics
instead. -/
theorem all_after_json_name_saves_complete {T : Type} (c : Codec T) (v1 v2 v3 : T) :
    ∃ l, Store.all (c3JsonScenario c v1 v2 v3).1 (c3JsonScenario c v1 v2 v3).2 = some l ∧
      l.Perm [v1, v2, v3] := by
  refine ⟨[v3, v2, v1], ?_, ?_⟩
  · show Store.all
      (Store.save c
        (Store.save c
          (Store.save c (⟨dataRoot, []⟩ : Store T) (FS.empty.createDirAll dataRoot)
            ⟨false, ["a.json"]⟩ v1).1
          (Store.save c (⟨dataRoot, []⟩ : Store T) (FS.empty.createDirAll dataRoot)
            ⟨false, ["a.json"]⟩ v1).2 ⟨false, ["b.json"]⟩ v2).1
        (Store.save c
          (Store.save c (⟨dataRoot, []⟩ : Store T) (FS.empty.createDirAll dataRoot)
            ⟨false, ["a.json"]⟩ v1).1
          (Store.save c (⟨dataRoot, []⟩ : Store T) (FS.empty.createDirAll dataRoot)
            ⟨false, ["a.json"]⟩ v1).2 ⟨false, ["b.json"]⟩ v2).2
        ⟨false, ["c.json"]⟩ v3).1
      (Store.save c
        (Store.save c
          (Store.save c (⟨dataRoot, []⟩ : Store T) (FS.empty.createDirAll dataRoot)
            ⟨false, ["a.json"]⟩ v1).1
          (Store.save c (⟨dataRoot, []⟩ : Store T) (FS.empty.createDirAll dataRoot)
            ⟨false, ["a.json"]⟩ v1).2 ⟨false, ["b.json"]⟩ v2).1
        (Store.save c
          (Store.save c (⟨dataRoot, []⟩ : Store T) (FS.empty.createDirAll dataRoot)
            ⟨false, ["a.json"]⟩ v1).1
          (Store.save c (⟨dataRoot, []⟩ : Store T) (FS.empty.createDirAll dataRoot)
            ⟨false, ["a.json"]⟩ v1).2 ⟨false, ["b.json"]⟩ v2).2
        ⟨false, ["c.json"]⟩ v3).2 = some [v3, v2, v1]
    rw [store_save_miss c _ _ _ _ (by rfl)]
    rw [store_save_miss c _ _ _ _ (by rfl)]
    rw [store_save_miss c _ _ _ _ (by rfl)]
    rfl
  · exact List.reverse_perm [v1, v2, v3]

/- with_extension on a path whose last component is known. -/
theorem withExt_append_single (b : Bool) (l : List String) (s ext : String) :
    RPath.withExt ⟨b, l ++ [s]⟩ ext = ⟨b, l ++ [withExtStr s ext]⟩ := by
  simp only [RPath.withExt]
  rw [List.getLast?_append_cons]
  simp [List.dropLast_append_cons]

/- The C4 scenario: on a fresh collection at "data", save under the name
"x" and then under the name "x.json". -/
def c4Scenario : Store String × FS :=
  let s1 := Store.save strCodec (⟨dataRoot, []⟩ : Store String) FS.empty ⟨false, ["x"]⟩ "v1"
  Store.save strCodec s1.1 s1.2 ⟨false, ["x.json"]⟩ "v2"

/-- C4 counterexample: saving under "x" and then under "x.json" does not
address one and the same entry: the map ends up with two distinct keys,
data/x and data/x.json, holding two distinct entries with the two
different values, because the map key is the joined path before the json
normalization that Stored::new applies to the backing file. -/
theorem save_x_and_x_json_two_entries :
    c4Scenario.1.data.map Prod.fst =
      [⟨false, ["data", "x.json"]⟩, ⟨false, ["data", "x"]⟩] ∧
    Store.get c4Scenario.1 ⟨false, ["x"]⟩ = some "v1" ∧
    Store.get c4Scenario.1 ⟨false, ["x.json"]⟩ = some "v2" ∧
    (⟨false, ["data", "x"]⟩ : RPath) ≠ ⟨false, ["data", "x.json"]⟩ := by decide

/-- C4 amended: for every collection, the names "x" and "x.json" resolve
to the same backing file on disk (the joined path normalized to the json
extension is the same), but not to the same entry identity in the entry
map: the map keys are the unnormalized joined paths, which differ. -/
theorem same_file_distinct_entry_keys {T : Type} (st : Store T) :
    (st.path.join ⟨false, ["x"]⟩).withExt "json" =
      (st.path.join ⟨false, ["x.json"]⟩).withExt "json" ∧
    st.path.join ⟨false, ["x"]⟩ ≠ st.path.join ⟨false, ["x.json"]⟩ := by
  constructor
  · simp [RPath.join, withExt_append_single,
      show withExtStr "x" "json" = "x.json" from by decide,
      show withExtStr "x.json" "json" = "x.json" from by decide]
  · intro h
    simp [RPath.join, RPath.mk.injEq, List.append_cancel_left_eq] at h

/- The loop of Store::all panics exactly when the listing holds an entry
with no extension at all, or a json-extension entry missing from the
map. -/
theorem allLoop_eq_none_iff {T : Type} (data : List (RPath × Stored T)) (ps : List RPath) :
    allLoop data ps = none ↔
      ∃ p ∈ ps, p.extension = none ∨
        (p.extension = some "json" ∧ lookupP data p = none) := by
  induction ps with
  | nil => simp [allLoop]
  | cons p ps ih =>
    cases hx : p.extension with
    | none => simp [allLoop, hx]
    | some e =>
      by_cases he : e = "json"
      · subst he
        cases hl : lookupP data p with
        | none => simp [allLoop, hx, hl]
        | some s => simp [allLoop, hx, hl, ih, Option.map_eq_none']
      · simp [allLoop, hx, he, ih]

/- The values the spec's sentence says all() returns on success: the
in-memory value of the map entry of every json-extension entry of the
directory listing, in listing order. -/
def specAllValues {T : Type} (data : List (RPath × Stored T)) (ps : List RPath) : List T :=
  (ps.filter (fun p => decide (p.extension = some "json"))).filterMap
    (fun p => (lookupP data p).map (fun s => s.value))

/- On success the loop of Store::all returns exactly those values. -/
theorem allLoop_eq_some_spec {T : Type} (data : List (RPath × Stored T)) (ps : List RPath)
    (vs : List T) (h : allLoop data ps = some vs) : vs = specAllValues data ps := by
  induction ps generalizing vs with
  | nil =>
    simp [allLoop] at h
    simp [specAllValues, ← h]
  | cons p ps ih =>
    cases hx : p.extension with
    | none => simp [allLoop, hx] at h
    | some e =>
      by_cases he : e = "json"
      · subst he
        cases hl : lookupP data p with
        | none => simp [allLoop, hx, hl] at h
        | some s =>
          simp [allLoop, hx, hl, Option.map_eq_some'] at h
          obtain ⟨ts, hts, hv⟩ := h
          subst hv
          simp [specAllValues, List.filter_cons, hx, hl, List.filterMap_cons]
          exact ih ts hts
      · simp [allLoop, hx, he] at h
        simpa [specAllValues, List.filter_cons, hx, he] using ih vs h

/- The C6 counterexample state: a listable root holding just the file
data/README, which has no extension, and an empty in-memory map. -/
def c6FS : FS := ⟨[⟨false, []⟩, dataRoot], [(⟨false, ["data", "README"]⟩, "")]⟩

def c6Store : Store String := ⟨dataRoot, []⟩

/-- C6 counterexample: the root is listable and no json-extension file
is missing from the in-memory set (there is no json file at all), so by
the claim all() would return the resolved in-memory values; instead it
panics, because the single listed file data/README has no extension and
the extension lookup is unwrapped. -/
theorem all_panics_without_consistency_violation :
    (∃ l, c6FS.listDir c6Store.path = some l ∧ ∀ p ∈ l, p.extension ≠ some "json") ∧
    Store.all c6Store c6FS = none := by decide

/-- C6 amended: all() fails exactly when the root directory cannot be
listed, or some entry of the listing has no extension at all, or some
entry has the json extension but no corresponding entry in the in-memory
set; whenever it succeeds, it returns the in-memory values of the map
entries of the json-extension entries of the listing, in listing
order. -/
theorem all_failure_characterization {T : Type} (st : Store T) (fs : FS) :
    (Store.all st fs = none ↔
      fs.listDir st.path = none ∨
        ∃ p ∈ (fs.listDir st.path).getD [],
          p.extension = none ∨ (p.extension = some "json" ∧ lookupP st.data p = none)) ∧
    (∀ vs, Store.all st fs = some vs →
      ∃ listing, fs.listDir st.path = some listing ∧ vs = specAllValues st.data listing) := by
  cases hl : fs.listDir st.path with
  | none => simp [Store.all, hl]
  | some l =>
    constructor
    · simp [Store.all, hl, allLoop_eq_none_iff]
    · intro vs hvs
      simp only [Store.all, hl] at hvs
      exact ⟨l, rfl, allLoop_eq_some_spec _ _ _ hvs⟩

/- The C6 witness state: one json file on disk with its map entry. -/
def c6WitStore : Store String :=
  ⟨dataRoot, [(⟨false, ["data", "w.json"]⟩, ⟨⟨false, ["data", "w.json"]⟩, "w"⟩)]⟩

def c6WitFS : FS := ⟨[⟨false, []⟩, dataRoot], [(⟨false, ["data", "w.json"]⟩, "w")]⟩

/-- Witness for C6 amended at a concrete input: on a consistent state the
success branch applies and returns the listed in-memory values. -/
theorem all_failure_characterization_witness :
    ∃ listing, c6WitFS.listDir c6WitStore.path = some listing ∧
      ["w"] = specAllValues c6WitStore.data listing :=
  (all_failure_characterization c6WitStore c6WitFS).2 ["w"] (by decide)

/-- C10: all() is partial beyond the failure cases the spec states: as
soon as the directory listing of the root holds an entry with no
extension at all, the extension unwrap panics, for every in-memory set —
in particular with no json-extension mismatch involved. -/
theorem all_panics_on_extensionless_file {T : Type} (st : Store T) (fs : FS)
    (l : List RPath) (p : RPath) (hl : fs.listDir st.path = some l) (hp : p ∈ l)
    (hext : p.extension = none) : Store.all st fs = none := by
  simp only [Store.all, hl]
  exact (allLoop_eq_none_iff st.data l).mpr ⟨p, hp, Or.inl hext⟩

/- The C10 witness state: the extensionless file data/notes on disk, an
empty map, no json file anywhere. -/
def c10FS : FS := ⟨[⟨false, []⟩, dataRoot], [(⟨false, ["data", "notes"]⟩, "")]⟩

def c10Store : Store String := ⟨dataRoot, []⟩

/-- Witness for C10 at a concrete input: the file data/notes has no
extension and all() panics. -/
theorem all_panics_on_extensionless_file_witness : Store.all c10Store c10FS = none :=
  all_panics_on_extensionless_file c10Store c10FS [⟨false, ["data", "notes"]⟩]
    ⟨false, ["data", "notes"]⟩ (by decide) (by decide) (by decide)

theorem isPrefixOf_self {α : Type} [BEq α] [LawfulBEq α] (l : List α) :
    l.isPrefixOf l = true := by
  induction l with
  | nil => simp [List.isPrefixOf]
  | cons a l ih => simp [List.isPrefixOf, ih]

theorem isPrefixOf_append {α : Type} [BEq α] [LawfulBEq α] (l m : List α) :
    l.isPrefixOf (l ++ m) = true := by
  induction l with
  | nil => simp [List.isPrefixOf]
  | cons a l ih => simp [List.isPrefixOf, ih]

theorem under_self (p : RPath) : p.under p = true := by
  simp [RPath.under, isPrefixOf_self]

theorem listDir_some_mem (fs : FS) (d : RPath) (l : List RPath)
    (h : fs.listDir d = some l) : d ∈ fs.dirs := by
  by_contra hc
  simp [FS.listDir, hc] at h

/- A successful Store::all means the root directory exists. -/
theorem all_some_root_mem {T : Type} (st : Store T) (fs : FS) (vs : List T)
    (h : Store.all st fs = some vs) : st.path ∈ fs.dirs := by
  cases hld : fs.listDir st.path with
  | none => simp [Store.all, hld] at h
  | some l => exact listDir_some_mem _ _ _ hld

theorem lookupP_removeP_self {α : Type} (l : List (RPath × α)) (p : RPath) :
    lookupP (removeP l p) p = none := by
  induction l with
  | nil => rfl
  | cons kv rest ih =>
    obtain ⟨q, v⟩ := kv
    by_cases h : q = p
    · simp [removeP, h, ih]
    · simp [removeP, lookupP, h, ih]

theorem lookupP_filter_none {α : Type} (l : List (RPath × α)) (p : RPath)
    (q : RPath × α → Bool) (h : lookupP l p = none) :
    lookupP (l.filter q) p = none := by
  induction l with
  | nil => rfl
  | cons kv rest ih =>
    obtain ⟨k, v⟩ := kv
    by_cases hk : k = p
    · subst hk
      simp [lookupP] at h
    · have h' : lookupP rest p = none := by simpa [lookupP, hk] using h
      rw [List.filter_cons]
      by_cases hq : q (k, v) = true
      · simp [hq, lookupP, hk, ih h']
      · simp [hq, ih h']

/-- C7: when delete(N) removes an entry and afterwards the file scan of
all() yields the empty value list, the whole root directory is removed
recursively: the call returns Ok, the root is no longer a directory, and
no directory or file under the root survives. -/
theorem delete_last_removes_root {T : Type} (st : Store T) (fs : FS) (n : RPath)
    (stored : Stored T) (fs1 : FS)
    (h1 : lookupP st.data (st.path.join n) = some stored)
    (h2 : fs.removeFile stored.path = some fs1)
    (h3 : Store.all ⟨st.path, removeP st.data (st.path.join n)⟩ fs1 = some []) :
    ∃ fs2, Store.delete st fs n =
        some (Except.ok (⟨st.path, removeP st.data (st.path.join n)⟩, fs2)) ∧
      st.path ∉ fs2.dirs ∧
      (∀ p ∈ fs2.dirs, p.under st.path = false) ∧
      (∀ f ∈ fs2.files, f.1.under st.path = false) := by
  have hmem : st.path ∈ fs1.dirs :=
    all_some_root_mem ⟨st.path, removeP st.data (st.path.join n)⟩ fs1 [] h3
  refine ⟨⟨fs1.dirs.filter (fun p => !(p.under st.path)),
    fs1.files.filter (fun f => !(f.1.under st.path))⟩, ?_, ?_, ?_, ?_⟩
  · simp only [Store.delete, h1, Stored.delete, h2, h3]
    simp [FS.removeDirAll, hmem]
  · intro hc
    have := (List.mem_filter.mp hc).2
    simp [under_self] at this
  · intro p hp
    have := (List.mem_filter.mp hp).2
    simpa using this
  · intro f hf
    have := (List.mem_filter.mp hf).2
    simpa using this

/- The C7 scenario: fresh collection at "data", then save("hello",
"world"). -/
def c7Scenario : Store String × FS :=
  let s0 : Store String × FS := Store.new dataRoot FS.empty
  Store.save strCodec s0.1 s0.2 ⟨false, ["hello"]⟩ "world"

/-- Witness for C7, the spec scenario: get("hello") returns "world", and
delete("hello") returns Ok and leaves no directory "data" (nor anything
under it) behind. -/
theorem delete_last_removes_root_witness :
    Store.get c7Scenario.1 ⟨false, ["hello"]⟩ = some "world" ∧
    ∃ fs2, Store.delete c7Scenario.1 c7Scenario.2 ⟨false, ["hello"]⟩ =
        some (Except.ok (⟨c7Scenario.1.path,
          removeP c7Scenario.1.data (c7Scenario.1.path.join ⟨false, ["hello"]⟩)⟩, fs2)) ∧
      dataRoot ∉ fs2.dirs ∧
      (∀ p ∈ fs2.dirs, p.under dataRoot = false) ∧
      (∀ f ∈ fs2.files, f.1.under dataRoot = false) :=
  ⟨by decide, delete_last_removes_root c7Scenario.1 c7Scenario.2 ⟨false, ["hello"]⟩
    ⟨⟨false, ["data", "hello.json"]⟩, "world"⟩ ⟨[⟨false, []⟩, dataRoot], []⟩
    (by decide) (by decide) (by decide)⟩

/-- C8 counterexample: delete on a name with no corresponding entry does
not return an error result to the caller: the map removal is unwrapped
on None, so the call panics (modelled as none) instead of producing a
NotFoundError value. -/
theorem delete_missing_name_panics :
    Store.delete (⟨dataRoot, []⟩ : Store String) FS.empty ⟨false, ["missing"]⟩ =
      none := by decide

/-- C8 amended: delete(name) addressing a name with no corresponding
entry in the in-memory set panics (aborts) via unwrap rather than
returning an error result; when an entry exists and its backing file can
be removed and the subsequent file scan succeeds, the call returns Ok
with the entry removed from the in-memory set and its backing file
deleted. -/
theorem delete_behavior {T : Type} (st : Store T) (fs : FS) (n : RPath) :
    (lookupP st.data (st.path.join n) = none → Store.delete st fs n = none) ∧
    (∀ stored fs1 vals, lookupP st.data (st.path.join n) = some stored →
      fs.removeFile stored.path = some fs1 →
      Store.all ⟨st.path, removeP st.data (st.path.join n)⟩ fs1 = some vals →
      ∃ fs2, Store.delete st fs n =
          some (Except.ok (⟨st.path, removeP st.data (st.path.join n)⟩, fs2)) ∧
        lookupP (removeP st.data (st.path.join n)) (st.path.join n) = none ∧
        fs2.readFile stored.path = none) := by
  constructor
  · intro h
    simp only [Store.delete, h]
  · intro stored fs1 vals h1 h2 h3
    have hf1 : fs1.files = removeP fs.files stored.path := by
      unfold FS.removeFile at h2
      cases hl : lookupP fs.files stored.path with
      | none => simp [hl] at h2
      | some cont =>
        simp [hl] at h2
        rw [← h2]
    have hread : fs1.readFile stored.path = none := by
      rw [FS.readFile, hf1]
      exact lookupP_removeP_self _ _
    by_cases hv : vals.isEmpty
    · have hmem : st.path ∈ fs1.dirs :=
        all_some_root_mem ⟨st.path, removeP st.data (st.path.join n)⟩ fs1 vals h3
      refine ⟨⟨fs1.dirs.filter (fun p => !(p.under st.path)),
        fs1.files.filter (fun f => !(f.1.under st.path))⟩, ?_,
        lookupP_removeP_self _ _, ?_⟩
      · simp only [Store.delete, h1, Stored.delete, h2, h3, hv]
        simp [hv, FS.removeDirAll, hmem]
      · rw [FS.readFile]
        exact lookupP_filter_none _ _ _ hread
    · refine ⟨fs1, ?_, lookupP_removeP_self _ _, hread⟩
      simp only [Store.delete, h1, Stored.delete, h2, h3]
      simp [hv]

/- The C8 witness state: one entry named "k" backed by data/k.json. -/
def c8Store : Store String :=
  ⟨dataRoot, [(⟨false, ["data", "k"]⟩, ⟨⟨false, ["data", "k.json"]⟩, "v"⟩)]⟩

def c8FS : FS := ⟨[⟨false, []⟩, dataRoot], [(⟨false, ["data", "k.json"]⟩, "v")]⟩

/-- Witness for C8 amended at a concrete input: deleting the existing
entry "k" returns Ok, removes the map entry and deletes the backing
file. -/
theorem delete_behavior_witness :
    ∃ fs2, Store.delete c8Store c8FS ⟨false, ["k"]⟩ =
        some (Except.ok (⟨c8Store.path,
          removeP c8Store.data (c8Store.path.join ⟨false, ["k"]⟩)⟩, fs2)) ∧
      lookupP (removeP c8Store.data (c8Store.path.join ⟨false, ["k"]⟩))
        (c8Store.path.join ⟨false, ["k"]⟩) = none ∧
      fs2.readFile ⟨false, ["data", "k.json"]⟩ = none :=
  (delete_behavior c8Store c8FS ⟨false, ["k"]⟩).2 ⟨⟨false, ["data", "k.json"]⟩, "v"⟩
    ⟨[⟨false, []⟩, dataRoot], []⟩ [] (by decide) (by decide) (by decide)

/- A client call against the collection, for quantifying over operation
sequences.  Names are paths, as handed to the &str parameters. -/
inductive Op (T : Type) where
  | save (name : RPath) (v : T)
  | get (name : RPath)
  | all
  | delete (name : RPath)

/- The name argument of the operation is a relative path (true also for
the argumentless all()). -/
def Op.relName {T : Type} : Op T → Bool
  | Op.save n _ => !n.abs
  | Op.get n => !n.abs
  | Op.all => true
  | Op.delete n => !n.abs

/- Run one operation.  get and all never mutate; a delete that panics or
returns an error leaves the surviving state unchanged in the model (the
removal it may have performed only ever shrinks the entry map). -/
def runOp {T : Type} (c : Codec T) (st : Store T) (fs : FS) : Op T → Store T × FS
  | Op.save n v => Store.save c st fs n v
  | Op.get _ => (st, fs)
  | Op.all => (st, fs)
  | Op.delete n =>
    match Store.delete st fs n with
    | some (Except.ok r) => r
    | _ => (st, fs)

def runOps {T : Type} (c : Codec T) : List (Op T) → Store T × FS → Store T × FS
  | [], s => s
  | op :: ops, s => runOps c ops (runOp c s.1 s.2 op)

/- The spec's collection invariant: every key of the entry map lies
under the root. -/
def keysUnder {T : Type} (st : Store T) : Prop :=
  ∀ kv ∈ st.data, kv.1.under st.path = true

/-- C9 counterexample: one save with an absolute name on a fresh
collection at "data" puts the key /tmp/evil into the entry map, and that
key does not lie under the root. -/
theorem save_absolute_name_escapes_root :
    (Store.save strCodec (Store.new dataRoot FS.empty : Store String × FS).1
        (Store.new dataRoot FS.empty : Store String × FS).2
        ⟨true, ["tmp", "evil"]⟩ "v").1.data.map Prod.fst = [⟨true, ["tmp", "evil"]⟩] ∧
    (⟨true, ["tmp", "evil"]⟩ : RPath).under dataRoot = false := by decide

theorem join_under (p n : RPath) (hn : n.abs = false) : (p.join n).under p = true := by
  simp [RPath.join, hn, RPath.under, isPrefixOf_append]

theorem save_path_eq {T : Type} (c : Codec T) (st : Store T) (fs : FS) (n : RPath)
    (v : T) : (Store.save c st fs n v).1.path = st.path := by
  cases hl : lookupP st.data (st.path.join n) with
  | none => simp [Store.save, hl]
  | some s => simp [Store.save, hl]

theorem save_keysUnder {T : Type} (c : Codec T) (st : Store T) (fs : FS) (n : RPath)
    (v : T) (hn : n.abs = false) (hinv : keysUnder st) :
    keysUnder (Store.save c st fs n v).1 := by
  cases hl : lookupP st.data (st.path.join n) with
  | some s => simpa only [Store.save, hl] using hinv
  | none =>
    simp only [Store.save, hl]
    intro kv hkv
    rcases List.mem_cons.mp hkv with h | h
    · subst h
      exact join_under st.path n hn
    · exact hinv kv h

theorem mem_removeP {α : Type} (l : List (RPath × α)) (p : RPath) (kv : RPath × α)
    (h : kv ∈ removeP l p) : kv ∈ l := by
  induction l with
  | nil => simp [removeP] at h
  | cons x rest ih =>
    obtain ⟨q, v⟩ := x
    by_cases hq : q = p
    · rw [removeP, if_pos hq] at h
      exact List.mem_cons_of_mem _ (ih h)
    · rw [removeP, if_neg hq] at h
      rcases List.mem_cons.mp h with h | h
      · simp [h]
      · exact List.mem_cons_of_mem _ (ih h)

/- Every Ok result of Store::delete carries the shrunk map under the
unchanged root. -/
theorem delete_ok_store {T : Type} (st : Store T) (fs : FS) (n : RPath)
    (r : Store T × FS) (h : Store.delete st fs n = some (Except.ok r)) :
    r.1.path = st.path ∧ ∀ kv ∈ r.1.data, kv ∈ st.data := by
  cases hl : lookupP st.data (st.path.join n) with
  | none => simp [Store.delete, hl] at h
  | some stored =>
    simp only [Store.delete, hl] at h
    cases hd : Stored.delete stored fs with
    | none => simp [hd] at h
    | some fs1 =>
      simp only [hd] at h
      cases ha : Store.all (⟨st.path, removeP st.data (st.path.join n)⟩ : Store T) fs1 with
      | none => simp [ha] at h
      | some vals =>
        simp only [ha] at h
        by_cases hv : vals.isEmpty = true
        · simp only [hv, if_true] at h
          cases hr : fs1.removeDirAll st.path with
          | none => simp [hr] at h
          | some fs2 =>
            simp only [hr] at h
            have he : ((⟨st.path, removeP st.data (st.path.join n)⟩ : Store T), fs2) = r := by
              simpa using h
            rw [← he]
            exact ⟨rfl, fun kv hkv => mem_removeP _ _ kv hkv⟩
        · rw [if_neg hv] at h
          have he : ((⟨st.path, removeP st.data (st.path.join n)⟩ : Store T), fs1) = r := by
            simpa using h
          rw [← he]
          exact ⟨rfl, fun kv hkv => mem_removeP _ _ kv hkv⟩

/- The invariant is preserved, and the root unchanged, by every sequence
of operations whose names are relative paths. -/
theorem keysUnder_runOps {T : Type} (c : Codec T) (ops : List (Op T)) :
    ∀ (st : Store T) (fs : FS), (∀ op ∈ ops, op.relName = true) → keysUnder st →
      keysUnder (runOps c ops (st, fs)).1 ∧ (runOps c ops (st, fs)).1.path = st.path := by
  induction ops with
  | nil => exact fun st fs _ hinv => ⟨hinv, rfl⟩
  | cons op ops ih =>
    intro st fs hops hinv
    have hop : op.relName = true := hops op (List.mem_cons_self _ _)
    have hrest : ∀ o ∈ ops, o.relName = true :=
      fun o ho => hops o (List.mem_cons_of_mem _ ho)
    have step : keysUnder (runOp c st fs op).1 ∧ (runOp c st fs op).1.path = st.path := by
      cases op with
      | save n v =>
        exact ⟨save_keysUnder c st fs n v (by simpa [Op.relName] using hop) hinv,
          save_path_eq c st fs n v⟩
      | get n => exact ⟨hinv, rfl⟩
      | all => exact ⟨hinv, rfl⟩
      | delete n =>
        cases hd : Store.delete st fs n with
        | none =>
          simp only [runOp, hd]
          exact ⟨hinv, trivial⟩
        | some e =>
          cases e with
          | error err =>
            simp only [runOp, hd]
            exact ⟨hinv, trivial⟩
          | ok r =>
            simp only [runOp, hd]
            obtain ⟨hpath, hsub⟩ := delete_ok_store st fs n r hd
            refine ⟨fun kv hkv => ?_, hpath⟩
            rw [hpath]
            exact hinv kv (hsub kv hkv)
    have main := ih (runOp c st fs op).1 (runOp c st fs op).2 hrest step.1
    exact ⟨main.1, main.2.trans step.2⟩

/-- C9 amended: restricted to relative name arguments, every key present
in the entry map after any sequence of operations on a freshly created
collection lies under the collection's root; a name given as an absolute
path, however, replaces the root in Path::join and breaks the invariant
(see the counterexample). -/
theorem entries_under_root_relative_names {T : Type} (c : Codec T) (root : RPath)
    (fs0 : FS) (ops : List (Op T)) (hops : ∀ op ∈ ops, op.relName = true) :
    ∀ kv ∈ (runOps c ops (Store.new root fs0)).1.data,
      kv.1.under (runOps c ops (Store.new root fs0)).1.path = true := by
  have h := keysUnder_runOps c ops (⟨root, []⟩ : Store T) (fs0.createDirAll root) hops
    (fun kv hkv => absurd hkv (List.not_mem_nil kv))
  exact h.1

/-- Witness for C9 amended at a concrete input: a save of "hello" then a
delete of "hello" on a fresh collection at "data", both relative names,
keep every surviving key under the root. -/
theorem entries_under_root_relative_names_witness :
    (∀ op ∈ ([Op.save ⟨false, ["hello"]⟩ "world",
        Op.delete ⟨false, ["hello"]⟩] : List (Op String)), op.relName = true) ∧
    ∀ kv ∈ (runOps strCodec [Op.save ⟨false, ["hello"]⟩ "world",
        Op.delete ⟨false, ["hello"]⟩] (Store.new dataRoot FS.empty)).1.data,
      kv.1.under (runOps strCodec [Op.save ⟨false, ["hello"]⟩ "world",
        Op.delete ⟨false, ["hello"]⟩] (Store.new dataRoot FS.empty)).1.path = true :=
  ⟨by decide, entries_under_root_relative_names strCodec dataRoot FS.empty
    [Op.save ⟨false, ["hello"]⟩ "world", Op.delete ⟨false, ["hello"]⟩] (by decide)⟩
